import Mathlib

/-!
Verification of the field-selector mixin of `drf_dynamic_fields`
(`src/drf_dynamic_fields/__init__.py`), a shallow embedding of the method
`DynamicFieldsMixin._filtered_readable_fields_dict` and of the memoized
`_readable_fields_dict` it mutates.

Modelling choices, matched to the Python source:
* An `OrderedDict` with string keys is an association list `Registry α`
  (`List (String × α)`); dictionary keys are unique in the source, and no
  statement below needs that invariant.
* A query-parameter container is an association list of string keys to
  `ParamValue`; `ParamValue.nonString` stands for a value with no `.split`
  method, so that the `AttributeError` fallbacks of the source are visible.
* `Request` has the two optional attributes the source probes with
  `getattr`: `query_params` (production) and `GET` (test harness); `none`
  means the attribute is absent.
* `hasContext : Bool` stands for `hasattr(self, '_context')`, and
  `contextRequest : Option Request` for the result of `self.context['request']`
  (`none` = `KeyError`).
* `warnings.warn` calls are collected in the returned `List Warning`.
* The in-place `fields.pop(field, None)` loop is `popLoop`, a fold of
  `odPop` (remove a key from an ordered dict) over the key set.
-/

namespace DrfDynamicFields

/-- A query-parameter value: either a string (which `.split(',')` can cut),
or some other object on which `.split` raises `AttributeError`. -/
inductive ParamValue where
  | str (s : String)
  | nonString
deriving DecidableEq, Repr

/-- The query-parameter container (`request.query_params` / `request.GET`):
a dictionary from parameter name to value. -/
abbrev Params := List (String × ParamValue)

/-- The request object: each field is `none` when the corresponding attribute
is absent on the Python object (so `getattr` falls through). -/
structure Request where
  query_params : Option Params
  GET : Option Params
deriving DecidableEq, Repr

/-- The two `warnings.warn` messages of the source. -/
inductive Warning where
  | contextNoRequest
  | requestNoQueryParams
deriving DecidableEq, Repr

/-- An ordered mapping from field name to field descriptor
(the `OrderedDict` built by `_readable_fields_dict`). -/
abbrev Registry (α : Type) := List (String × α)

/-- `getattr(request, 'query_params', getattr(request, 'GET', None))`. -/
def requestParams (request : Request) : Option Params :=
  match request.query_params with
  | some p => some p
  | none => request.GET

/-- Helper for `pySplit`: walks the characters, `acc` holding the current
piece reversed. -/
def pySplitAux (sep : Char) (acc : List Char) : List Char → List String
  | [] => [String.mk acc.reverse]
  | c :: cs =>
    if c = sep then String.mk acc.reverse :: pySplitAux sep [] cs
    else pySplitAux sep (c :: acc) cs

/-- Python's `value.split(sep)` for a one-character separator: cut at every
occurrence, keeping empty pieces (so `''.split(',') == ['']`). -/
def pySplit (sep : Char) (s : String) : List String :=
  pySplitAux sep [] s.data

/-- `params.get(key, None).split(',')` wrapped in `try/except AttributeError`:
`none` when the container is `None`, the key is absent, or the value has no
`.split`; otherwise the comma-split pieces. -/
def getSplit (params : Option Params) (key : String) : Option (List String) :=
  match params with
  | none => none
  | some ps =>
    match List.lookup key ps with
    | some (ParamValue.str s) => some (pySplit ',' s)
    | some ParamValue.nonString => none
    | none => none

/-- `fields.pop(field, None)` on an ordered dict: drop the entries keyed by
`k`, keeping the rest in order. -/
def odPop (d : Registry α) (k : String) : Registry α :=
  d.filter (fun p => p.1 != k)

/-- The `for field in existing:` loop of the source: for each name, pop it
when it is not in `allowed`, and pop it when it is in `omitted`. -/
def popLoop (d : Registry α) (existing allowed omitted : List String) :
    Registry α :=
  existing.foldl (fun fs field =>
    let fs1 := if !(allowed.contains field) then odPop fs field else fs
    if omitted.contains field then odPop fs1 field else fs1) d

/-- `DynamicFieldsMixin._filtered_readable_fields_dict`, translated
branch by branch. `fields` is the memoized `_readable_fields_dict`. -/
def filteredReadableFieldsDict (fields : Registry α) (hasContext : Bool)
    (contextRequest : Option Request) : Registry α × List Warning :=
  if hasContext = false then
    -- we are being called before a request cycle.
    (fields, [])
  else
    match contextRequest with
    | none => (fields, [Warning.contextNoRequest])
    | some request =>
      let params := requestParams request
      let warns := if params = none then [Warning.requestNoQueryParams] else []
      let filter_fields : Option (List String) := getSplit params "fields"
      let omit_fields : List String := (getSplit params "omit").getD []
      let existing : List String := fields.map Prod.fst
      let allowed : List String :=
        match filter_fields with
        | none => existing
        | some l => l.filter (fun t => t != "")
      let omitted : List String := omit_fields.filter (fun t => t != "")
      (popLoop fields existing allowed omitted, warns)

/-- The non-empty comma-separated tokens of a directive value
(`filter(None, value.split(','))`). -/
def splitTokens (s : String) : List String :=
  (pySplit ',' s).filter (fun t => t != "")

/-- Specification-level keep predicate: whether the field named `name`
survives the directives carried by the given context, independent of the
registry it is applied to. -/
def keepName (hasContext : Bool) (contextRequest : Option Request)
    (name : String) : Bool :=
  if hasContext = false then true
  else
    match contextRequest with
    | none => true
    | some request =>
      let params := requestParams request
      let allowedOk :=
        match getSplit params "fields" with
        | none => true
        | some l => (l.filter (fun t => t != "")).contains name
      let omittedOk :=
        !(((getSplit params "omit").getD []).filter (fun t => t != "")).contains name
      allowedOk && omittedOk

/-- The serializer state the method mutates: the contents of the
`cached_property` `_readable_fields_dict`. -/
structure SerializerState (α : Type) where
  readableFieldsCache : Registry α

/-- One call of `_filtered_readable_fields_dict` on a serializer instance:
the method reads the memoized dict, pops from it in place, and returns the
very same object, so the cache after the call is the returned mapping. -/
def invokeFiltered (s : SerializerState α) (hasContext : Bool)
    (contextRequest : Option Request) :
    (Registry α × List Warning) × SerializerState α :=
  let r := filteredReadableFieldsDict s.readableFieldsCache hasContext contextRequest
  (r, ⟨r.1⟩)

/-! ### Characterization lemmas -/

theorem odPop_odPop (d : Registry α) (k : String) :
    odPop (odPop d k) k = odPop d k := by
  simp [odPop, List.filter_filter]

theorem popLoop_step_eq (d : Registry α) (f : String)
    (allowed omitted : List String) :
    (let fs1 := if !(allowed.contains f) then odPop d f else d
     if omitted.contains f then odPop fs1 f else fs1)
      = d.filter (fun p =>
          (allowed.contains p.1 && !(omitted.contains p.1)) || p.1 != f) := by
  have hpop : (allowed.contains f && !(omitted.contains f)) = false →
      odPop d f = d.filter (fun p =>
        (allowed.contains p.1 && !(omitted.contains p.1)) || p.1 != f) := by
    intro hk
    refine List.filter_congr ?_
    intro p _
    by_cases hp : p.1 = f
    · subst hp
      cases hA : allowed.contains p.1 <;> cases hO : omitted.contains p.1 <;>
        simp_all
    · simp [hp]
  cases ha : allowed.contains f <;> cases ho : omitted.contains f
  · exact Eq.trans (by simp) (hpop (by rw [ha]; exact Bool.false_and _))
  · exact Eq.trans (by simp)
      (Eq.trans (odPop_odPop d f) (hpop (by rw [ha]; exact Bool.false_and _)))
  · trans d
    · simp
    · symm
      refine List.filter_eq_self.mpr ?_
      intro p _
      by_cases hp : p.1 = f
      · subst hp; rw [ha, ho]; simp
      · simp [hp]
  · exact Eq.trans (by simp)
      (hpop (by rw [ho, Bool.not_true, Bool.and_false]))

theorem popLoop_eq_filter (d : Registry α) (ex allowed omitted : List String) :
    popLoop d ex allowed omitted
      = d.filter (fun p =>
          !(ex.contains p.1)
            || (allowed.contains p.1 && !(omitted.contains p.1))) := by
  induction ex generalizing d with
  | nil => simp [popLoop]
  | cons f rest ih =>
    have step :
        popLoop d (f :: rest) allowed omitted
          = popLoop
              (let fs1 := if !(allowed.contains f) then odPop d f else d
               if omitted.contains f then odPop fs1 f else fs1)
              rest allowed omitted := rfl
    rw [step, popLoop_step_eq, ih, List.filter_filter]
    refine List.filter_congr ?_
    intro p _
    by_cases hp : p.1 = f
    · subst hp
      cases hA : allowed.contains p.1 <;> cases hO : omitted.contains p.1 <;>
        cases hR : rest.contains p.1 <;> simp_all
    · have : (f :: rest).contains p.1 = rest.contains p.1 := by
        simp [hp, Ne.symm hp]
      cases hA : allowed.contains p.1 <;> cases hO : omitted.contains p.1 <;>
        cases hR : rest.contains p.1 <;> simp_all

theorem filtered_eq_filter_keep (fields : Registry α) (hasContext : Bool)
    (contextRequest : Option Request) :
    (filteredReadableFieldsDict fields hasContext contextRequest).1
      = fields.filter (fun p => keepName hasContext contextRequest p.1) := by
  cases hasContext with
  | false => simp [filteredReadableFieldsDict, keepName]
  | true =>
    cases contextRequest with
    | none => simp [filteredReadableFieldsDict, keepName]
    | some request =>
      simp only [filteredReadableFieldsDict, keepName, Bool.true_eq_false,
        if_false]
      rw [popLoop_eq_filter]
      refine List.filter_congr ?_
      intro p hp
      have hmem : p.1 ∈ fields.map Prod.fst := List.mem_map_of_mem Prod.fst hp
      cases hff : getSplit (requestParams request) "fields" with
      | none => simp [hmem, hff]
      | some l => simp [hmem, hff]

theorem filtered_fst_sublist (fields : Registry α) (hasContext : Bool)
    (contextRequest : Option Request) :
    ((filteredReadableFieldsDict fields hasContext contextRequest).1).Sublist
      fields := by
  rw [filtered_eq_filter_keep]
  exact List.filter_sublist fields

theorem keepName_pair (fv ov name : String) :
    keepName true
        (some ⟨some [("fields", ParamValue.str fv), ("omit", ParamValue.str ov)],
          none⟩) name
      = ((splitTokens fv).contains name && !((splitTokens ov).contains name)) := by
  simp [keepName, requestParams, getSplit, List.lookup, splitTokens]

/-! ### Claim theorems -/

/-- C1: for every readable field registry and every pair of query directives,
the filtered result contains exactly the entries whose name is a key of the
registry, is in the allow-set, and is not in the deny-set, preserving the
registry's ordering; in particular, for the registry {id,name,email,url}
with `fields=id,name,email&omit=email` the result is {id,name}, and the omit
check removes `email` even though the allow-list admits it. -/
theorem filteredResult_allow_and_not_deny (α : Type) (fields : Registry α)
    (fv ov : String) :
    (filteredReadableFieldsDict fields true
        (some ⟨some [("fields", ParamValue.str fv), ("omit", ParamValue.str ov)],
          none⟩)).1
      = fields.filter (fun p =>
          (splitTokens fv).contains p.1 && !((splitTokens ov).contains p.1))
    ∧ (filteredReadableFieldsDict
          [("id", (1 : Nat)), ("name", 2), ("email", 3), ("url", 4)] true
          (some ⟨some [("fields", ParamValue.str "id,name,email"),
            ("omit", ParamValue.str "email")], none⟩)).1
        = [("id", 1), ("name", 2)]
    ∧ (splitTokens "id,name,email").contains "email" = true := by
  refine ⟨?_, by decide, by decide⟩
  rw [filtered_eq_filter_keep]
  refine List.filter_congr ?_
  intro p _
  simp [keepName, requestParams, getSplit, List.lookup, splitTokens]

/-- C2: with no query parameters supplied (empty parameter container, so
neither a `fields` nor an `omit` directive is present), the filter returns
the registry unchanged, order preserved, and warns about nothing. -/
theorem filteredResult_no_params_identity (α : Type) (fields : Registry α) :
    filteredReadableFieldsDict fields true (some ⟨some [], none⟩)
      = (fields, []) := by
  refine Prod.ext_iff.mpr ⟨?_, rfl⟩
  rw [filtered_eq_filter_keep]
  refine List.filter_eq_self.mpr ?_
  intro p _
  simp [keepName, requestParams, getSplit]

/-- C5: with no serialization context the selector returns all readable
fields unfiltered and silently; with a context lacking the request key it
emits the non-fatal warning and still returns all readable fields unchanged
— fail open in both cases. -/
theorem filteredResult_fail_open_missing_context (α : Type)
    (fields : Registry α) (contextRequest : Option Request) :
    filteredReadableFieldsDict fields false contextRequest = (fields, [])
    ∧ filteredReadableFieldsDict fields true none
        = (fields, [Warning.contextNoRequest]) :=
  ⟨rfl, rfl⟩

/-- C7: filtering an already-filtered mapping again with the same
parameters yields the same mapping. -/
theorem filteredResult_idempotent (α : Type) (fields : Registry α)
    (hasContext : Bool) (contextRequest : Option Request) :
    (filteredReadableFieldsDict
        (filteredReadableFieldsDict fields hasContext contextRequest).1
        hasContext contextRequest).1
      = (filteredReadableFieldsDict fields hasContext contextRequest).1 := by
  simp only [filtered_eq_filter_keep, List.filter_filter, Bool.and_self]

/-- C3: a `fields` parameter present with a blank value yields an empty
allow-set (the blank value parses to no tokens), so a non-empty registry
filters down to the empty mapping. -/
theorem filteredResult_blank_fields_empty (α : Type) (fields : Registry α)
    (_hne : fields ≠ []) :
    (filteredReadableFieldsDict fields true
        (some ⟨some [("fields", ParamValue.str "")], none⟩)).1 = []
    ∧ splitTokens "" = [] := by
  refine ⟨?_, by decide⟩
  have h0 : (pySplit ',' "").filter (fun t => t != "") = [] := by decide
  rw [filtered_eq_filter_keep]
  refine List.filter_eq_nil_iff.mpr ?_
  intro p _
  simp [keepName, requestParams, getSplit, List.lookup, h0]

theorem filteredResult_blank_fields_empty_witness :
    ([(("id" : String), (0 : Nat))] ≠ []) ∧
    ((filteredReadableFieldsDict [(("id" : String), (0 : Nat))] true
        (some ⟨some [("fields", ParamValue.str "")], none⟩)).1 = []
      ∧ splitTokens "" = []) :=
  ⟨by decide, filteredResult_blank_fields_empty Nat [("id", 0)] (by decide)⟩

/-- C4: the result's key sequence is always a subsequence of the registry's
key sequence (declaration order), never the order of the `fields` tokens;
e.g. registry {id,name,email,url} with `fields=name,id` yields {id,name}. -/
theorem filteredResult_order_preserved (α : Type) :
    (∀ (fields : Registry α) (hasContext : Bool)
        (contextRequest : Option Request),
        (((filteredReadableFieldsDict fields hasContext contextRequest).1).map
            Prod.fst).Sublist (fields.map Prod.fst))
    ∧ (filteredReadableFieldsDict
          [("id", (1 : Nat)), ("name", 2), ("email", 3), ("url", 4)] true
          (some ⟨some [("fields", ParamValue.str "name,id")], none⟩)).1
        = [("id", 1), ("name", 2)] := by
  refine ⟨?_, by decide⟩
  intro fields h r
  exact (filtered_fst_sublist fields h r).map Prod.fst

/-- C6: a request exposing neither query-parameter attribute makes the
selector warn and proceed with no directives, returning the full registry;
a directive value without `.split` behaves exactly as an absent directive;
both are total, fail-open computations (nothing is raised). -/
theorem filteredResult_fail_open_missing_params :
    (∀ (α : Type) (fields : Registry α),
        filteredReadableFieldsDict fields true (some ⟨none, none⟩)
          = (fields, [Warning.requestNoQueryParams]))
    ∧ (∀ (α : Type) (fields : Registry α) (ps : Params) (g : Option Params),
        List.lookup "fields" ps = none →
        filteredReadableFieldsDict fields true
            (some ⟨some (("fields", ParamValue.nonString) :: ps), g⟩)
          = filteredReadableFieldsDict fields true (some ⟨some ps, g⟩)) := by
  constructor
  · intro α fields
    refine Prod.ext_iff.mpr ⟨?_, rfl⟩
    rw [filtered_eq_filter_keep]
    refine List.filter_eq_self.mpr ?_
    intro p _
    simp [keepName, requestParams, getSplit]
  · intro α fields ps g hf
    refine Prod.ext_iff.mpr ⟨?_, rfl⟩
    rw [filtered_eq_filter_keep, filtered_eq_filter_keep]
    refine List.filter_congr ?_
    intro p _
    simp [keepName, requestParams, getSplit, List.lookup, hf]

theorem filteredResult_fail_open_missing_params_witness :
    (List.lookup "fields" [(("omit" : String), ParamValue.str "id")] = none)
    ∧ filteredReadableFieldsDict [(("id" : String), (0 : Nat))] true
        (some ⟨some [("fields", ParamValue.nonString),
          ("omit", ParamValue.str "id")], none⟩)
      = filteredReadableFieldsDict [(("id" : String), (0 : Nat))] true
        (some ⟨some [("omit", ParamValue.str "id")], none⟩) :=
  ⟨by decide,
    filteredResult_fail_open_missing_params.2 Nat [("id", 0)]
      [("omit", ParamValue.str "id")] none (by decide)⟩

/-- C8: a directive name that is not a registry key is silently ignored —
only the membership of the registry's own keys in the token lists matters,
no entry outside the registry is ever added, and the computation returns
normally on unknown names. -/
theorem filteredResult_unknown_names_ignored :
    (∀ (α : Type) (fields : Registry α) (hasContext : Bool)
        (contextRequest : Option Request) (p : String × α),
        p ∈ (filteredReadableFieldsDict fields hasContext contextRequest).1 →
        p ∈ fields)
    ∧ (∀ (α : Type) (fields : Registry α) (fv1 ov1 fv2 ov2 : String),
        (∀ k ∈ fields.map Prod.fst,
          (splitTokens fv1).contains k = (splitTokens fv2).contains k) →
        (∀ k ∈ fields.map Prod.fst,
          (splitTokens ov1).contains k = (splitTokens ov2).contains k) →
        (filteredReadableFieldsDict fields true
            (some ⟨some [("fields", ParamValue.str fv1),
              ("omit", ParamValue.str ov1)], none⟩)).1
          = (filteredReadableFieldsDict fields true
              (some ⟨some [("fields", ParamValue.str fv2),
                ("omit", ParamValue.str ov2)], none⟩)).1)
    ∧ (filteredReadableFieldsDict [(("id" : String), (0 : Nat)), ("name", 1)]
          true (some ⟨some [("fields", ParamValue.str "id,unknown"),
            ("omit", ParamValue.str "bogus")], none⟩))
        = ([("id", 0)], []) := by
  refine ⟨?_, ?_, by decide⟩
  · intro α fields h r p hp
    exact (filtered_fst_sublist fields h r).subset hp
  · intro α fields fv1 ov1 fv2 ov2 hf ho
    rw [filtered_eq_filter_keep, filtered_eq_filter_keep]
    refine List.filter_congr ?_
    intro p hp
    rw [keepName_pair, keepName_pair,
      hf p.1 (List.mem_map_of_mem Prod.fst hp),
      ho p.1 (List.mem_map_of_mem Prod.fst hp)]

theorem filteredResult_unknown_names_ignored_witness :
    (∀ k ∈ ([(("id" : String), (0 : Nat)), ("name", 1)].map Prod.fst),
        (splitTokens "id,unknown").contains k = (splitTokens "id").contains k)
    ∧ (∀ k ∈ ([(("id" : String), (0 : Nat)), ("name", 1)].map Prod.fst),
        (splitTokens "bogus").contains k = (splitTokens "").contains k)
    ∧ (filteredReadableFieldsDict [(("id" : String), (0 : Nat)), ("name", 1)]
          true (some ⟨some [("fields", ParamValue.str "id,unknown"),
            ("omit", ParamValue.str "bogus")], none⟩)).1
        = (filteredReadableFieldsDict [(("id" : String), (0 : Nat)), ("name", 1)]
            true (some ⟨some [("fields", ParamValue.str "id"),
              ("omit", ParamValue.str "")], none⟩)).1 :=
  ⟨by decide, by decide,
    filteredResult_unknown_names_ignored.2.1 Nat [("id", 0), ("name", 1)]
      "id,unknown" "bogus" "id" "" (by decide) (by decide)⟩

/-- C9: the filter pops entries from the memoized readable-fields dict in
place: right after any invocation the serializer's cache equals the
returned mapping, so a name absent from one invocation's result stays
absent from every later invocation on the same instance, whatever the
later parameters are. -/
theorem invokeFiltered_cache_in_place (α : Type) (s : SerializerState α)
    (h1 : Bool) (r1 : Option Request) (h2 : Bool) (r2 : Option Request)
    (k : String) :
    ((invokeFiltered s h1 r1).2.readableFieldsCache
        = (invokeFiltered s h1 r1).1.1)
    ∧ (k ∉ ((invokeFiltered s h1 r1).1.1.map Prod.fst) →
        k ∉ ((invokeFiltered (invokeFiltered s h1 r1).2 h2 r2).1.1.map
          Prod.fst)) := by
  refine ⟨rfl, ?_⟩
  intro hk hmem
  exact hk (((filtered_fst_sublist _ h2 r2).map Prod.fst).subset hmem)

theorem invokeFiltered_cache_in_place_witness :
    ("name" ∉ ((invokeFiltered
        (⟨[("id", (0 : Nat)), ("name", 1)]⟩ : SerializerState Nat) true
        (some ⟨some [("fields", ParamValue.str "id")], none⟩)).1.1.map
          Prod.fst))
    ∧ ("name" ∉ ((invokeFiltered
          (invokeFiltered
            (⟨[("id", (0 : Nat)), ("name", 1)]⟩ : SerializerState Nat) true
            (some ⟨some [("fields", ParamValue.str "id")], none⟩)).2 true
          (some ⟨some [("fields", ParamValue.str "id,name")], none⟩)).1.1.map
        Prod.fst)) :=
  ⟨by decide,
    (invokeFiltered_cache_in_place Nat ⟨[("id", 0), ("name", 1)]⟩ true
        (some ⟨some [("fields", ParamValue.str "id")], none⟩) true
        (some ⟨some [("fields", ParamValue.str "id,name")], none⟩)
        "name").2 (by decide)⟩

/-- C10: directive values are split on commas only, with no whitespace
trimming and only empty tokens dropped: `'a, b'` produces the tokens
`'a'` and `' b'`, so the field `b` is not matched by the allow-list and
not matched by the deny-list. -/
theorem filteredResult_no_whitespace_trim (α : Type) (x y : α) :
    pySplit ',' "a, b" = ["a", " b"]
    ∧ splitTokens "a, b" = ["a", " b"]
    ∧ (filteredReadableFieldsDict [("a", x), ("b", y)] true
        (some ⟨some [("fields", ParamValue.str "a, b")], none⟩)).1 = [("a", x)]
    ∧ (filteredReadableFieldsDict [("a", x), ("b", y)] true
        (some ⟨some [("omit", ParamValue.str "a, b")], none⟩)).1 = [("b", y)] :=
  ⟨by decide, by decide, rfl, rfl⟩

end DrfDynamicFields
